import Mathlib

/-!
Verification of the willhaben-vip/server scraping pipeline
(`script/update_product_images.py`) against its natural-language
specification.  Each Python component relevant to the spec claims is
shallowly embedded as a pure Lean definition: stateful methods become
explicit state-passing functions, wall-clock times are rationals (or
integer seconds where only threshold comparisons occur), asyncio-locked
critical sections are modelled as atomic sequential steps, and fallible
operations return Option/Except.
-/

namespace WillhabenScraper

/-! ## Shared constants (from the top of the script) -/

/-- CACHE_EXPIRY = 86400 * 7 (7 days in seconds). -/
def CACHE_EXPIRY : ℚ := 86400 * 7

/-- PROXY_ROTATION_THRESHOLD = 3 (failures before rotating proxy). -/
def PROXY_ROTATION_THRESHOLD : ℕ := 3

/-! ## StateManager.is_file_processed (C6)

`file_progress` maps a filename to the ordered list of completed URLs;
it is embedded as an association list (Python dict with unique keys). -/

/-- Lookup in an association list: first matching key, like a Python dict
with unique keys. -/
def assocLookup {α : Type} (l : List (String × α)) (k : String) : Option α :=
  match l.find? (fun p => p.1 == k) with
  | some p => some p.2
  | none => none

/-- The part of StateManager state that `is_file_processed` reads. -/
structure StateProgress where
  file_progress : List (String × List String)

/-- StateManager.is_file_processed: `filename not in file_progress` gives
False; an empty progress list gives False; otherwise processed iff the
list has at least 5 entries. -/
def is_file_processed (s : StateProgress) (filename : String) : Bool :=
  match assocLookup s.file_progress filename with
  | none => false
  | some urls =>
    if urls.length = 0 then false
    else decide (5 ≤ urls.length)

/-! ## Cache read/write paths (C7)

The on-disk cache is embedded as an association list from URL to
(body, mtime).  `is_cache_valid` checks existence and strict age bound;
the read path in `fetch_url` additionally requires the read content to
be truthy; the write path stores only non-trivial bodies. -/

/-- A cache: URL mapped to stored body and its mtime. -/
def CacheMap : Type := List (String × (String × ℚ))

/-- is_cache_valid: entry exists and `now - mtime < CACHE_EXPIRY`
(strict). -/
def is_cache_valid (cache : CacheMap) (url : String) (now : ℚ) : Bool :=
  match assocLookup cache url with
  | none => false
  | some (_, mtime) => decide (now - mtime < CACHE_EXPIRY)

/-- The cache read path at the top of fetch_url: return the stored body
only if the entry is valid and the read content is truthy (non-empty). -/
def cacheGet (cache : CacheMap) (url : String) (now : ℚ) : Option String :=
  if is_cache_valid cache url now then
    match assocLookup cache url with
    | some (body, _) => if body ≠ "" then some body else none
    | none => none
  else none

/-- The cache store condition in fetch_url on HTTP 200:
`if content and len(content) > 100`. -/
def shouldCacheBody (content : String) : Bool :=
  (content ≠ "" : Bool) && decide (100 < content.length)

/-- The cache write path: store (url -> (content, now)) iff the body is
non-trivial, else leave the cache unchanged. -/
def cachePut (cache : CacheMap) (url : String) (content : String) (now : ℚ) :
    CacheMap :=
  if shouldCacheBody content then (url, (content, now)) :: cache else cache

/-! ## Per-worker session health score (C8)

`create_safe_session` tracks `session_health`; error classes are the
Python strings passed as `error_type`.  An update is one call: either an
error (class-dependent decrement, then forced renewal with reset to 70
if the score fell below 40) or a success (+5 capped at 100). -/

/-- Health decrement for an error class, from create_safe_session. -/
def healthPenalty (errorType : String) : ℤ :=
  if errorType = "connection" ∨ errorType = "timeout" then 30
  else if errorType = "http_error" ∨ errorType = "rate_limit" then 20
  else 10

/-- One health update: `some e` is a call with error_type=e, `none` a
call after a successful operation.  Returns the new score and whether a
new connection pool was forced by low health. -/
def healthStep (h : ℤ) (event : Option String) : ℤ × Bool :=
  match event with
  | some e =>
    let h1 := h - healthPenalty e
    if h1 < 40 then (70, true) else (h1, false)
  | none => (min 100 (h + 5), false)

/-- Fold a sequence of health updates from an initial score. -/
def runHealth (h : ℤ) (events : List (Option String)) : ℤ :=
  events.foldl (fun acc e => (healthStep acc e).1) h

/-! ### Theorems for C6 -/

/-- C6: StateManager.is_file_processed returns True exactly when the
filename has a recorded progress list of at least 5 completed URLs, and
False when the filename has no entry or fewer than 5. -/
theorem is_file_processed_iff (s : StateProgress) (filename : String) :
    is_file_processed s filename = true ↔
      ∃ urls, assocLookup s.file_progress filename = some urls ∧
        5 ≤ urls.length := by
  unfold is_file_processed
  cases h : assocLookup s.file_progress filename with
  | none => simp
  | some urls =>
    by_cases h0 : urls.length = 0
    · simp [h0]
    · simp [h0]

/-! ### Theorems for C7 -/

/-- C7: the cache read path returns a stored body only for an existing
entry strictly younger than the 7-day expiry; an entry stored through
the write path is returned at any age below expiry and is a miss at or
past expiry; and the write path stores a body iff it is non-empty and
longer than the 100-character threshold (storing nothing otherwise). -/
theorem cache_read_write_contract :
    (∀ (cache : CacheMap) (url body : String) (now : ℚ),
      cacheGet cache url now = some body →
      ∃ mtime, assocLookup cache url = some (body, mtime) ∧
        now - mtime < CACHE_EXPIRY) ∧
    (∀ (cache : CacheMap) (url body : String) (T ε : ℚ),
      shouldCacheBody body = true → 0 ≤ ε → ε < CACHE_EXPIRY →
      cacheGet (cachePut cache url body T) url (T + ε) = some body) ∧
    (∀ (cache : CacheMap) (url body : String) (T ε : ℚ),
      shouldCacheBody body = true → CACHE_EXPIRY ≤ ε →
      cacheGet (cachePut cache url body T) url (T + ε) = none) ∧
    (∀ body : String,
      shouldCacheBody body = true ↔ body ≠ "" ∧ 100 < body.length) ∧
    (∀ (cache : CacheMap) (url body : String) (now : ℚ),
      shouldCacheBody body = false → cachePut cache url body now = cache) := by
  refine ⟨?_, ?_, ?_, ?_, ?_⟩
  · intro cache url body now h
    unfold cacheGet is_cache_valid at h
    cases he : assocLookup cache url with
    | none => rw [he] at h; simp at h
    | some p =>
      obtain ⟨b, mtime⟩ := p
      rw [he] at h
      by_cases hage : now - mtime < CACHE_EXPIRY
      · by_cases hb : b = ""
        · simp [hage, hb] at h
        · simp [hage, hb] at h
          subst h
          exact ⟨mtime, rfl, hage⟩
      · simp [hage] at h
  · intro cache url body T ε hstore hε hlt
    have hb : body ≠ "" := by
      unfold shouldCacheBody at hstore
      intro hcon
      simp [hcon] at hstore
    unfold cacheGet is_cache_valid cachePut
    rw [if_pos hstore]
    have hl : assocLookup ((url, (body, T)) :: cache) url = some (body, T) := by
      unfold assocLookup
      simp [List.find?]
    rw [hl]
    have hage : T + ε - T < CACHE_EXPIRY := by linarith
    simp [hage, hb]
    linarith
  · intro cache url body T ε hstore hge
    unfold cacheGet is_cache_valid cachePut
    rw [if_pos hstore]
    have hl : assocLookup ((url, (body, T)) :: cache) url = some (body, T) := by
      unfold assocLookup
      simp [List.find?]
    rw [hl]
    have hage : ¬ (T + ε - T < CACHE_EXPIRY) := by
      intro hcon; linarith
    simp [hage]
    intro hcon
    linarith
  · intro body
    unfold shouldCacheBody
    constructor
    · intro h
      constructor
      · intro hcon; simp [hcon] at h
      · have := (Bool.and_eq_true _ _).mp h
        simpa using this.2
    · intro ⟨h1, h2⟩
      simp [h1, h2]
  · intro cache url body now h
    unfold cachePut
    simp [h]

/-- Witness for C7 at a concrete cache, body and ages. -/
theorem cache_read_write_contract_witness :
    cacheGet (cachePut [] "https://example.com/p"
        (String.mk (List.replicate 101 'a')) 0) "https://example.com/p" 10 =
      some (String.mk (List.replicate 101 'a')) ∧
    cacheGet (cachePut [] "https://example.com/p"
        (String.mk (List.replicate 101 'a')) 0) "https://example.com/p"
        (CACHE_EXPIRY + 1) = none := by
  have hstore : shouldCacheBody (String.mk (List.replicate 101 'a')) = true := by
    decide
  constructor
  · have := cache_read_write_contract.2.1 [] "https://example.com/p"
      (String.mk (List.replicate 101 'a')) 0 10 hstore (by norm_num)
      (by unfold CACHE_EXPIRY; norm_num)
    simpa using this
  · have := cache_read_write_contract.2.2.1 [] "https://example.com/p"
      (String.mk (List.replicate 101 'a')) 0 (CACHE_EXPIRY + 1) hstore
      (by unfold CACHE_EXPIRY; norm_num)
    simpa using this

/-! ### Theorems for C8 -/

/-- Auxiliary invariant: after any sequence of updates from a start score
in [40, 100], the score stays in [40, 100]. -/
theorem runHealth_invariant (events : List (Option String)) :
    ∀ h : ℤ, 40 ≤ h → h ≤ 100 →
      40 ≤ runHealth h events ∧ runHealth h events ≤ 100 := by
  induction events with
  | nil => intro h h1 h2; exact ⟨h1, h2⟩
  | cons e rest ih =>
    intro h h1 h2
    have hstep : 40 ≤ (healthStep h e).1 ∧ (healthStep h e).1 ≤ 100 := by
      unfold healthStep
      cases e with
      | some et =>
        by_cases hlow : h - healthPenalty et < 40
        · simp only [if_pos hlow]
          omega
        · simp only [if_neg hlow]
          constructor
          · omega
          · have hpen : 10 ≤ healthPenalty et := by
              unfold healthPenalty
              split
              · omega
              · split
                · omega
                · omega
            omega
      | none =>
        simp only []
        omega
    have : runHealth h (e :: rest) = runHealth (healthStep h e).1 rest := rfl
    rw [this]
    exact ih (healthStep h e).1 hstep.1 hstep.2

/-- C8: starting from the initial score 100, the session health score
stays within [0, 100] across every sequence of updates; on an error the
score drops by the class-dependent penalty unless that would take it
below 40, in which case a new pool is forced and the score resets to 70;
on a success it gains 5 capped at 100.  The class penalties are 30 for
connection/timeout, 20 for http_error/rate_limit, 10 otherwise. -/
theorem session_health_bounds :
    (∀ events : List (Option String),
      0 ≤ runHealth 100 events ∧ runHealth 100 events ≤ 100) ∧
    (∀ (h : ℤ) (e : String),
      healthStep h (some e) =
        if h - healthPenalty e < 40 then (70, true)
        else (h - healthPenalty e, false)) ∧
    (∀ h : ℤ, healthStep h none = (min 100 (h + 5), false)) ∧
    healthPenalty "connection" = 30 ∧ healthPenalty "timeout" = 30 ∧
    healthPenalty "http_error" = 20 ∧ healthPenalty "rate_limit" = 20 ∧
    healthPenalty "worker_stuck" = 10 := by
  refine ⟨?_, ?_, ?_, by decide, by decide, by decide, by decide, by decide⟩
  · intro events
    have := runHealth_invariant events 100 (by norm_num) (by norm_num)
    omega
  · intro h e; rfl
  · intro h; rfl

/-! ## JSON-LD values and extract_image_urls (C9, C10)

JSON values are embedded as a first-order inductive type; arrays and
objects are encoded with explicit nil/cons constructors so that
decidable equality can be derived.  A JSON-LD record (a Python dict) is
an association list from field names to values. -/

/-- A JSON value.  Arrays are arrNil/arrCons chains, objects are
objNil/objCons chains. -/
inductive Json where
  | str : String → Json
  | num : Int → Json
  | boolVal : Bool → Json
  | jnull : Json
  | arrNil : Json
  | arrCons : Json → Json → Json
  | objNil : Json
  | objCons : String → Json → Json → Json
deriving DecidableEq

instance : Inhabited Json := ⟨Json.jnull⟩

/-- A JSON-LD record, i.e. a Python dict at the top level. -/
def Dict : Type := List (String × Json)

/-- Elements of an encoded array value. -/
def Json.arrElems : Json → List Json
  | Json.arrCons h t => h :: t.arrElems
  | _ => []

/-- Whether the value is a Python `str`. -/
def Json.isStr : Json → Bool
  | Json.str _ => true
  | _ => false

/-- Whether the value is a Python `list`. -/
def Json.isArr : Json → Bool
  | Json.arrNil => true
  | Json.arrCons _ _ => true
  | _ => false

/-- Lookup of a key inside an encoded object value. -/
def Json.objFind : Json → String → Option Json
  | Json.objCons k v t, key => if k = key then some v else t.objFind key
  | _, _ => none

/-- Build an encoded array value from a list of values. -/
def Json.arrOf (l : List Json) : Json :=
  l.foldr Json.arrCons Json.arrNil

/-- Whether a Python value is hashable (usable as a set element):
lists and dicts are not. -/
def Json.pyHashable : Json → Bool
  | Json.arrNil => false
  | Json.arrCons _ _ => false
  | Json.objNil => false
  | Json.objCons _ _ _ => false
  | _ => true

/-- The values collected for one record from its `image` field:
a string is taken as-is; a list keeps only its string elements; a dict
with a `url` key contributes that key's value (of any type). -/
def imageFieldUrls (v : Json) : List Json :=
  match v with
  | Json.str s => [Json.str s]
  | Json.arrNil => []
  | Json.arrCons h t => (h :: t.arrElems).filter Json.isStr
  | Json.objNil => []
  | Json.objCons k w t => match (Json.objCons k w t).objFind "url" with
    | some u => [u]
    | none => []
  | _ => []

/-- The values collected from a `thumbnail`/`primaryImageOfPage` field:
a string is taken as-is; a dict with a `url` key contributes that key's
value; there is no list case for these properties. -/
def propFieldUrls (v : Json) : List Json :=
  match v with
  | Json.str s => [Json.str s]
  | Json.objNil => []
  | Json.objCons k w t => match (Json.objCons k w t).objFind "url" with
    | some u => [u]
    | none => []
  | _ => []

/-- Values collected for one JSON-LD record, in source order:
the `image` patterns, then `thumbnail`, then `primaryImageOfPage`. -/
def collectItemImages (item : Dict) : List Json :=
  (match assocLookup item "image" with
   | some v => imageFieldUrls v
   | none => []) ++
  (match assocLookup item "thumbnail" with
   | some v => propFieldUrls v
   | none => []) ++
  (match assocLookup item "primaryImageOfPage" with
   | some v => propFieldUrls v
   | none => [])

/-- extract_image_urls: collect candidate values across all records and
deduplicate via `list(set(...))`.  Building the Python set raises
TypeError when any collected value is unhashable (a list or dict); this
is modelled by the error result.  The set's iteration order is
unspecified in Python; the model keeps first occurrences. -/
def extract_image_urls (jsonLdData : List Dict) : Except Unit (List Json) :=
  let imageUrls := jsonLdData.foldr (fun item acc => collectItemImages item ++ acc) []
  if imageUrls.all Json.pyHashable then Except.ok imageUrls.dedup
  else Except.error ()

/-! ## process_product_url (C9)

The collaborators are parameters: `existingData` is the result of
check_existing_sku_data (None, or a non-empty validated record list);
`fetchedHtml` is the result of fetch_url; `extractLd` is the
extruct-based extract_json_ld.  The returned triple is
(success, used_cache, final value of the record's image field). -/

/-- The value assigned to product_ref['image']:
`image_urls[0] if len(image_urls) == 1 else image_urls`. -/
def imageAssignValue (urls : List Json) : Json :=
  if urls.length = 1 then urls.headI else Json.arrOf urls

/-- The network branch of process_product_url: fetch failure or an empty
JSON-LD extraction fail without touching the image field; zero extracted
image URLs succeed without touching the image field; otherwise the image
field is assigned.  A TypeError escaping extract_image_urls is caught by
the outer handler of process_product_url. -/
def fetchBranch (productImage : Option Json) (fetchedHtml : Option String)
    (extractLd : String → List Dict) : Bool × Bool × Option Json :=
  match fetchedHtml with
  | none => (false, false, productImage)
  | some html =>
    if html = "" then (false, false, productImage)
    else
      let jsonLd := extractLd html
      if jsonLd.isEmpty then (false, false, productImage)
      else
        match extract_image_urls jsonLd with
        | Except.error _ => (false, false, productImage)
        | Except.ok imageUrls =>
          if imageUrls.isEmpty then (true, false, productImage)
          else (true, false, some (imageAssignValue imageUrls))

/-- process_product_url: with an invalid session nothing happens; with
truthy existing SKU data the image field is assigned unconditionally
(also when zero URLs were extracted) and (True, True) is returned;
otherwise the network branch runs. -/
def process_product_url (sessionOk : Bool) (productImage : Option Json)
    (existingData : Option (List Dict)) (fetchedHtml : Option String)
    (extractLd : String → List Dict) : Bool × Bool × Option Json :=
  if !sessionOk then (false, false, productImage)
  else
    match existingData with
    | some data =>
      if data.isEmpty then fetchBranch productImage fetchedHtml extractLd
      else
        match extract_image_urls data with
        | Except.error _ => (false, false, productImage)
        | Except.ok imageUrls => (true, true, some (imageAssignValue imageUrls))
    | none => fetchBranch productImage fetchedHtml extractLd

/-! ### Theorems for C9 -/

/-- C9: with existing on-disk SKU data yielding zero image URLs, the
image field is still assigned (to the empty list) and the result is
success with used_cache = True; on the network path with a non-empty
JSON-LD extraction yielding zero image URLs, the image field is left
unchanged and the result is success with used_cache = False. -/
theorem process_product_url_zero_images :
    (∀ (img : Option Json) (data : List Dict) (fetchedHtml : Option String)
       (extractLd : String → List Dict),
      data ≠ [] → extract_image_urls data = Except.ok [] →
      process_product_url true img (some data) fetchedHtml extractLd =
        (true, true, some Json.arrNil)) ∧
    (∀ (img : Option Json) (html : String) (extractLd : String → List Dict),
      html ≠ "" → extractLd html ≠ [] →
      extract_image_urls (extractLd html) = Except.ok [] →
      process_product_url true img none (some html) extractLd =
        (true, false, img)) := by
  constructor
  · intro img data fetchedHtml extractLd hne hok
    unfold process_product_url
    have hde : data.isEmpty = false := by
      cases data with
      | nil => exact absurd rfl hne
      | cons a t => rfl
    simp only [Bool.not_true, Bool.false_eq_true, if_false, hde, hok]
    rfl
  · intro img html extractLd hne hld hok
    unfold process_product_url fetchBranch
    have hld' : (extractLd html).isEmpty = false := by
      cases hcase : extractLd html with
      | nil => exact absurd hcase hld
      | cons a t => rfl
    simp only [Bool.not_true, Bool.false_eq_true, if_false, hne, hld', hok]
    simp [hne]

/-- Witness for C9 at a concrete record list with no image fields. -/
theorem process_product_url_zero_images_witness :
    process_product_url true none (some [[("@type", Json.str "Product")]])
        none (fun _ => [[("@type", Json.str "Product")]]) =
      (true, true, some Json.arrNil) ∧
    process_product_url true none none (some "x")
        (fun _ => [[("@type", Json.str "Product")]]) =
      (true, false, none) := by
  constructor
  · exact process_product_url_zero_images.1 none [[("@type", Json.str "Product")]]
      none (fun _ => [[("@type", Json.str "Product")]]) (by simp) (by rfl)
  · exact process_product_url_zero_images.2 none "x"
      (fun _ => [[("@type", Json.str "Product")]]) (by simp) (by simp) (by rfl)

/-! ### Theorems for C10 -/

/-- C10 counterexample: a record whose image dict carries a list under
`url` makes `set(image_urls)` raise TypeError (unhashable type), so
extract_image_urls does not return a list at all on this input. -/
theorem extract_image_urls_raises_on_unhashable :
    extract_image_urls [[("image", Json.objCons "url" Json.arrNil Json.objNil)]] =
      Except.error () := by
  rfl

/-- C10 amended: whenever extract_image_urls returns normally (every
collected value hashable), the returned list is duplicate-free. -/
theorem extract_image_urls_nodup (jsonLdData : List Dict) (urls : List Json)
    (h : extract_image_urls jsonLdData = Except.ok urls) : urls.Nodup := by
  unfold extract_image_urls at h
  by_cases hall : (jsonLdData.foldr (fun item acc => collectItemImages item ++ acc)
      []).all Json.pyHashable = true
  · rw [if_pos hall] at h
    cases h
    exact List.nodup_dedup _
  · rw [if_neg hall] at h
    exact absurd h (by simp)

/-- Witness for C10 amended: the same URL under `image` of one record
and `thumbnail` of another is returned once. -/
theorem extract_image_urls_nodup_witness :
    extract_image_urls [[("image", Json.str "https://img/a.jpg")],
        [("thumbnail", Json.str "https://img/a.jpg")]] =
      Except.ok [Json.str "https://img/a.jpg"] ∧
    ([Json.str "https://img/a.jpg"] : List Json).Nodup := by
  constructor
  · rfl
  · exact extract_image_urls_nodup
      [[("image", Json.str "https://img/a.jpg")],
       [("thumbnail", Json.str "https://img/a.jpg")]]
      [Json.str "https://img/a.jpg"] (by rfl)

/-! ## RequestQueue (C2)

Queue items are (url, product_ref, filename) triples; the product
reference type is a parameter.  `pending` is the Python set of URL
strings.  `put` validates its item (statically guaranteed here by the
types) and inserts only non-pending URLs; the bounded asyncio.Queue
blocks rather than rejects when full, so a completed put always
enqueued.  `task_done` calls the underlying asyncio.Queue.task_done
first, which raises ValueError when no unfinished item remains — in
that case `pending.discard` is never reached. -/

/-- The RequestQueue state: queued items, the pending URL set, and the
asyncio.Queue unfinished-task counter. -/
structure RequestQueue (Ref : Type) where
  queue : List (String × Ref × String)
  pending : Finset String
  unfinished : ℕ

/-- A fresh queue. -/
def RequestQueue.init (Ref : Type) : RequestQueue Ref :=
  { queue := [], pending := ∅, unfinished := 0 }

/-- RequestQueue.put: enqueue and mark pending if the URL is not already
pending (returning True), otherwise change nothing (returning False). -/
def RequestQueue.put {Ref : Type} (s : RequestQueue Ref)
    (item : String × Ref × String) : RequestQueue Ref × Bool :=
  if item.1 ∈ s.pending then (s, false)
  else ({ queue := s.queue ++ [item], pending := insert item.1 s.pending,
          unfinished := s.unfinished + 1 }, true)

/-- RequestQueue.get: take the next queued item; blocks (no result) on
an empty queue. -/
def RequestQueue.get {Ref : Type} (s : RequestQueue Ref) :
    Option (RequestQueue Ref × (String × Ref × String)) :=
  match s.queue with
  | [] => none
  | item :: rest => some ({ s with queue := rest }, item)

/-- RequestQueue.task_done: decrement the unfinished counter and discard
the URL from pending; raises (no result) when the counter is zero,
before the discard. -/
def RequestQueue.task_done {Ref : Type} (s : RequestQueue Ref)
    (url : String) : Option (RequestQueue Ref) :=
  if s.unfinished = 0 then none
  else some { queue := s.queue, pending := s.pending.erase url,
              unfinished := s.unfinished - 1 }

/-- RequestQueue.pending_count: the size of the pending set. -/
def RequestQueue.pending_count {Ref : Type} (s : RequestQueue Ref) : ℕ :=
  s.pending.card

/-- An operation against the queue. -/
inductive QueueOp (Ref : Type) where
  | put : String × Ref × String → QueueOp Ref
  | get : QueueOp Ref
  | taskDone : String → QueueOp Ref

/-- One operation step; none when the operation blocks or raises. -/
def RequestQueue.step {Ref : Type} (s : RequestQueue Ref) :
    QueueOp Ref → Option (RequestQueue Ref)
  | QueueOp.put item => some (s.put item).1
  | QueueOp.get =>
    match s.queue with
    | [] => none
    | _ :: rest => some { s with queue := rest }
  | QueueOp.taskDone url => s.task_done url

/-- Run a sequence of operations, requiring each to complete. -/
def RequestQueue.runOps {Ref : Type} (s : RequestQueue Ref) :
    List (QueueOp Ref) → Option (RequestQueue Ref)
  | [] => some s
  | op :: rest =>
    match s.step op with
    | some s1 => s1.runOps rest
    | none => none

/-- The specification-level pending set of a trace: a URL is pending
after a put of it with no later task_done of it.  Computed as a fold:
put inserts, task_done removes, get is irrelevant. -/
def specPending {Ref : Type} : Finset String → List (QueueOp Ref) → Finset String
  | S, [] => S
  | S, QueueOp.put item :: rest => specPending (insert item.1 S) rest
  | S, QueueOp.get :: rest => specPending S rest
  | S, QueueOp.taskDone url :: rest => specPending (S.erase url) rest

/-- Auxiliary invariant: along any completed trace the implementation
pending set equals the specification pending set. -/
theorem runOps_pending_eq {Ref : Type} :
    ∀ (ops : List (QueueOp Ref)) (s s' : RequestQueue Ref),
      s.runOps ops = some s' → s'.pending = specPending s.pending ops := by
  intro ops
  induction ops with
  | nil =>
    intro s s' h
    cases h
    rfl
  | cons op rest ih =>
    intro s s' h
    cases op with
    | put item =>
      simp only [RequestQueue.runOps, RequestQueue.step] at h
      unfold specPending
      by_cases hmem : item.1 ∈ s.pending
      · unfold RequestQueue.put at h
        rw [if_pos hmem] at h
        have := ih s s' h
        rw [this, Finset.insert_eq_self.mpr hmem]
      · unfold RequestQueue.put at h
        rw [if_neg hmem] at h
        exact ih _ s' h
    | get =>
      simp only [RequestQueue.runOps, RequestQueue.step] at h
      cases hq : s.queue with
      | nil => rw [hq] at h; simp at h
      | cons item rest2 =>
        rw [hq] at h
        simp only [] at h
        unfold specPending
        exact ih { s with queue := rest2 } s' h
    | taskDone url =>
      simp only [RequestQueue.runOps, RequestQueue.step,
        RequestQueue.task_done] at h
      by_cases h0 : s.unfinished = 0
      · rw [if_pos h0] at h; simp at h
      · rw [if_neg h0] at h
        simp only [] at h
        unfold specPending
        exact ih _ s' h

/-- C2: putting a URL that is already pending changes nothing and
returns False; putting a not-pending URL appends exactly one queue entry
and returns True; and along any completed trace from an empty queue,
pending_count equals the number of distinct URLs that were enqueued and
not yet passed to task_done. -/
theorem request_queue_dedup {Ref : Type} :
    (∀ (s : RequestQueue Ref) (item : String × Ref × String),
      item.1 ∈ s.pending → s.put item = (s, false)) ∧
    (∀ (s : RequestQueue Ref) (item : String × Ref × String),
      item.1 ∉ s.pending →
      s.put item = ({ queue := s.queue ++ [item],
                      pending := insert item.1 s.pending,
                      unfinished := s.unfinished + 1 }, true)) ∧
    (∀ (ops : List (QueueOp Ref)) (s' : RequestQueue Ref),
      (RequestQueue.init Ref).runOps ops = some s' →
      s'.pending_count = (specPending ∅ ops).card) := by
  refine ⟨?_, ?_, ?_⟩
  · intro s item hmem
    unfold RequestQueue.put
    rw [if_pos hmem]
  · intro s item hmem
    unfold RequestQueue.put
    rw [if_neg hmem]
  · intro ops s' h
    unfold RequestQueue.pending_count
    rw [runOps_pending_eq ops (RequestQueue.init Ref) s' h]
    rfl

/-- Witness for C2: put u, duplicate put u, get, task_done u leaves an
empty pending set matching the specification count. -/
theorem request_queue_dedup_witness :
    (RequestQueue.init Unit).runOps
      [QueueOp.put ("u", (), "f"), QueueOp.put ("u", (), "f"),
       QueueOp.get, QueueOp.taskDone "u"] =
      some { queue := [], pending := (insert "u" (∅ : Finset String)).erase "u",
             unfinished := 0 } ∧
    ({ queue := [], pending := (insert "u" (∅ : Finset String)).erase "u",
       unfinished := 0 } : RequestQueue Unit).pending_count =
      (specPending ∅
        [QueueOp.put (("u", (), "f") : String × Unit × String),
         QueueOp.put ("u", (), "f"), QueueOp.get, QueueOp.taskDone "u"]).card := by
  constructor
  · rfl
  · exact (@request_queue_dedup Unit).2.2
      [QueueOp.put ("u", (), "f"), QueueOp.put ("u", (), "f"),
       QueueOp.get, QueueOp.taskDone "u"] _ (by rfl)

/-! ## The --max-requests cap in main (C3)

main iterates over input files; before starting each file it breaks out
of the loop when the size of the processed-URL set has reached
args.max_requests, and in resume mode skips files already marked as
processed.  Processing a file attempts every product URL: a URL skipped
by resume does nothing; a cache-served URL is marked processed without a
fetch; otherwise a fetch is performed, and the URL is marked processed
only if it succeeds.  The collaborators (resume skip data, cache
contents, fetch outcomes) are parameters. -/

/-- Add a URL to the processed set (Python set add). -/
def insertUrl (processed : List String) (url : String) : List String :=
  if processed.contains url then processed else processed ++ [url]

/-- One URL inside a file: accumulator is (processed set, fetches so far). -/
def processUrlStep (resume : Bool) (skuDone cached fetchOk : String → Bool)
    (acc : List String × ℕ) (url : String) : List String × ℕ :=
  if resume && (acc.1.contains url || skuDone url) then acc
  else if cached url then (insertUrl acc.1 url, acc.2)
  else if fetchOk url then (insertUrl acc.1 url, acc.2 + 1)
  else (acc.1, acc.2 + 1)

/-- Processing one file: fold over its product URLs. -/
def processFileFetches (resume : Bool) (skuDone cached fetchOk : String → Bool)
    (processed : List String) (urls : List String) : List String × ℕ :=
  urls.foldl (processUrlStep resume skuDone cached fetchOk) (processed, 0)

/-- The break condition checked before each file:
`len(state_manager.processed_urls) >= args.max_requests`. -/
def capReached (maxRequests : Option ℕ) (processed : List String) : Bool :=
  match maxRequests with
  | none => false
  | some m => decide (m ≤ processed.length)

/-- The per-file loop of main: returns the final processed set and the
total number of fetches performed this run. -/
def runMain (maxRequests : Option ℕ) (resume : Bool)
    (fileDone skuDone cached fetchOk : String → Bool) :
    List String → List (String × List String) → List String × ℕ
  | processed, [] => (processed, 0)
  | processed, (name, urls) :: rest =>
    if capReached maxRequests processed then (processed, 0)
    else if resume && fileDone name then
      runMain maxRequests resume fileDone skuDone cached fetchOk processed rest
    else
      let r1 := processFileFetches resume skuDone cached fetchOk processed urls
      let r2 := runMain maxRequests resume fileDone skuDone cached fetchOk r1.1 rest
      (r2.1, r1.2 + r2.2)

/-! ### Theorems for C3 -/

/-- C3 counterexample: with --max-requests 1, a single file holding two
fresh URLs (nothing cached, nothing previously completed, fetches
succeeding) performs 2 new fetches in the run, exceeding the cap of 1:
the cap is only consulted between files. -/
theorem max_requests_cap_counterexample :
    (runMain (some 1) false (fun _ => false) (fun _ => false) (fun _ => false)
        (fun _ => true) [] [("listing.json", ["u1", "u2"])]).2 = 2 ∧
      ¬ (2 ≤ 1) := by
  constructor
  · rfl
  · omega

/-- C3 amended: the --max-requests check runs only between files: the
run performs no further file (and hence no further fetch) once the
processed-URL count — which includes URLs completed in earlier runs and
cache-served completions — has reached M; within a file that was already
started, fetches are not individually capped. -/
theorem max_requests_cap_amended :
    (∀ (m : ℕ) (resume : Bool) (fileDone skuDone cached fetchOk : String → Bool)
       (processed : List String) (files : List (String × List String)),
      m ≤ processed.length →
      runMain (some m) resume fileDone skuDone cached fetchOk processed files =
        (processed, 0)) ∧
    (∀ (m : ℕ) (resume : Bool) (fileDone skuDone cached fetchOk : String → Bool)
       (processed : List String) (name : String) (urls : List String)
       (rest : List (String × List String)),
      processed.length < m → (resume && fileDone name) = false →
      (runMain (some m) resume fileDone skuDone cached fetchOk processed
          ((name, urls) :: rest)).2 =
        (processFileFetches resume skuDone cached fetchOk processed urls).2 +
        (runMain (some m) resume fileDone skuDone cached fetchOk
          (processFileFetches resume skuDone cached fetchOk processed urls).1
          rest).2) := by
  constructor
  · intro m resume fileDone skuDone cached fetchOk processed files hm
    cases files with
    | nil => rfl
    | cons f rest =>
      obtain ⟨name, urls⟩ := f
      unfold runMain
      have hcap : capReached (some m) processed = true := by
        unfold capReached
        simpa using hm
      rw [if_pos hcap]
  · intro m resume fileDone skuDone cached fetchOk processed name urls rest hm hskip
    have hcap : capReached (some m) processed = false := by
      unfold capReached
      simpa using hm
    conv_lhs => rw [runMain]
    rw [if_neg (by simp [hcap] : ¬ capReached (some m) processed = true)]
    rw [if_neg (by simp [hskip] : ¬ (resume && fileDone name) = true)]

/-- Witness for C3 amended at concrete inputs. -/
theorem max_requests_cap_amended_witness :
    runMain (some 0) false (fun _ => false) (fun _ => false) (fun _ => false)
        (fun _ => true) [] [("f.json", ["u1"])] = ([], 0) ∧
    (runMain (some 1) false (fun _ => false) (fun _ => false) (fun _ => false)
        (fun _ => true) [] [("f.json", ["u1", "u2"])]).2 =
      (processFileFetches false (fun _ => false) (fun _ => false)
          (fun _ => true) [] ["u1", "u2"]).2 +
      (runMain (some 1) false (fun _ => false) (fun _ => false) (fun _ => false)
          (fun _ => true)
          (processFileFetches false (fun _ => false) (fun _ => false)
            (fun _ => true) [] ["u1", "u2"]).1 []).2 := by
  constructor
  · exact max_requests_cap_amended.1 0 false (fun _ => false) (fun _ => false)
      (fun _ => false) (fun _ => true) [] [("f.json", ["u1"])] (by simp)
  · exact max_requests_cap_amended.2 1 false (fun _ => false) (fun _ => false)
      (fun _ => false) (fun _ => true) [] "f.json" ["u1", "u2"] [] (by simp) (by rfl)

/-! ## ProxyManager (C4)

Proxy pool state: `failed_proxies` and `proxy_last_used` are Python
dicts, embedded as insertion-ordered association lists with unique keys;
`time.time()` readings are the `now` parameter, modelled as integer
seconds (only order and differences against the 60s threshold are ever
used).  The asyncio.Lock serializes get_proxy/mark_proxy_failure, so
they are atomic steps. -/

/-- Dict-style update: replace the value of an existing key in place, or
append a new key at the end (Python dict insertion order). -/
def assocSet {α : Type} : List (String × α) → String → α → List (String × α)
  | [], k, v => [(k, v)]
  | (k0, v0) :: rest, k, v =>
    if k0 = k then (k, v) :: rest else (k0, v0) :: assocSet rest k v

/-- The ProxyManager state. -/
structure ProxyManager where
  proxies : List String
  available_proxies : List String
  failed_proxies : List (String × ℕ)
  proxy_last_used : List (String × ℤ)
  current_proxy : Option String
deriving DecidableEq

/-- mark_proxy_failure: a falsy proxy is ignored; otherwise the failure
count is incremented, and at the threshold of 3 the proxy is removed
from the available list and unpinned if it was current. -/
def mark_proxy_failure (s : ProxyManager) (proxy : String) : ProxyManager :=
  if proxy = "" then s
  else
    let current_failures := (assocLookup s.failed_proxies proxy).getD 0
    let failed2 := assocSet s.failed_proxies proxy (current_failures + 1)
    if PROXY_ROTATION_THRESHOLD ≤ current_failures + 1 then
      { s with failed_proxies := failed2,
               available_proxies := s.available_proxies.erase proxy,
               current_proxy := if s.current_proxy = some proxy then none
                                else s.current_proxy }
    else { s with failed_proxies := failed2 }

/-- Python `sorted(self.failed_proxies.items(), key=lambda x: x[1])`:
a stable sort by failure count. -/
def sortByFailures (l : List (String × ℕ)) : List (String × ℕ) :=
  List.insertionSort (fun a b => a.2 ≤ b.2) l

/-- The loop body of _recover_failed_proxies: walk the count-sorted
candidates, append each retired proxy of the pool back to the available
list with its counter reset to 0, and stop once 3 are available. -/
def recoverLoop (proxies : List String) :
    List (String × ℕ) → List String → List (String × ℕ) →
    List String × List (String × ℕ)
  | [], avail, failed => (avail, failed)
  | (p, _) :: rest, avail, failed =>
    if p ∉ avail ∧ p ∈ proxies then
      let avail2 := avail ++ [p]
      let failed2 := assocSet failed p 0
      if 3 ≤ avail2.length then (avail2, failed2)
      else recoverLoop proxies rest avail2 failed2
    else recoverLoop proxies rest avail failed

/-- _recover_failed_proxies: returns immediately when more than 3
proxies are available, otherwise reinstates failed proxies in ascending
failure-count order. -/
def recover_failed_proxies (s : ProxyManager) : ProxyManager :=
  if 3 < s.available_proxies.length then s
  else
    let sorted := sortByFailures s.failed_proxies
    let result := recoverLoop s.proxies sorted s.available_proxies
      s.failed_proxies
    { s with available_proxies := result.1, failed_proxies := result.2 }

/-- The body of get_proxy after the recovery attempt, on a non-empty
available list: keep the pinned current proxy when it was last used
more than 60s ago; else rotate to the first available proxy unused for
60s; else fall back to the least-recently-used available proxy (Python
min keeps the first minimum). -/
def get_proxy_rotate (s : ProxyManager) (now : ℤ) :
    ProxyManager × Option String :=
  let pinned :=
    match s.current_proxy with
    | some c =>
      if c ≠ "" ∧ c ∈ s.available_proxies then
        let last_used := (assocLookup s.proxy_last_used c).getD 0
        if 60 < now - last_used then
          some ({ s with proxy_last_used := assocSet s.proxy_last_used c now },
                some c)
        else none
      else none
    | none => none
  match pinned with
  | some r => r
  | none =>
    match s.available_proxies.find?
        (fun p => decide (60 < now - (assocLookup s.proxy_last_used p).getD 0)) with
    | some p =>
      ({ s with current_proxy := some p,
                proxy_last_used := assocSet s.proxy_last_used p now }, some p)
    | none =>
      match s.available_proxies with
      | [] => (s, none)
      | a :: rest =>
        let lru := rest.foldl (fun best p =>
          if (assocLookup s.proxy_last_used p).getD 0 <
             (assocLookup s.proxy_last_used best).getD 0 then p else best) a
        ({ s with current_proxy := some lru,
                  proxy_last_used := assocSet s.proxy_last_used lru now },
         some lru)

/-- get_proxy: attempt recovery only when the available list is empty;
give up if it is still empty, else pick a proxy. -/
def get_proxy (s : ProxyManager) (now : ℤ) : ProxyManager × Option String :=
  let s1 := if s.available_proxies.isEmpty then recover_failed_proxies s else s
  if s1.available_proxies.isEmpty then (s1, none)
  else get_proxy_rotate s1 now

/-! ### Lemmas about assocSet and the recovery loop -/

theorem assocLookup_assocSet_self {α : Type} (l : List (String × α))
    (k : String) (v : α) : assocLookup (assocSet l k v) k = some v := by
  induction l with
  | nil => simp [assocSet, assocLookup, List.find?]
  | cons p rest ih =>
    obtain ⟨k0, v0⟩ := p
    unfold assocSet
    by_cases hk : k0 = k
    · rw [if_pos hk]
      simp [assocLookup, List.find?]
    · rw [if_neg hk]
      unfold assocLookup at ih ⊢
      simp only [List.find?]
      have : (k0 == k) = false := by simpa using hk
      rw [this]
      exact ih

theorem assocLookup_assocSet_ne {α : Type} (l : List (String × α))
    (k' k : String) (v : α) (h : k' ≠ k) :
    assocLookup (assocSet l k' v) k = assocLookup l k := by
  induction l with
  | nil =>
    simp only [assocSet, assocLookup, List.find?]
    have : (k' == k) = false := by simpa using h
    rw [this]
  | cons p rest ih =>
    obtain ⟨k0, v0⟩ := p
    unfold assocSet
    by_cases hk : k0 = k'
    · rw [if_pos hk]
      unfold assocLookup
      simp only [List.find?]
      have h1 : (k' == k) = false := by simpa using h
      have h2 : (k0 == k) = false := by
        subst hk
        simpa using h
      rw [h1, h2]
    · rw [if_neg hk]
      unfold assocLookup at ih ⊢
      simp only [List.find?]
      cases hbeq : (k0 == k) with
      | true => rfl
      | false => exact ih

/-- Reset the counters of the given keys to 0, in order. -/
def setZeros (failed : List (String × ℕ)) (keys : List String) :
    List (String × ℕ) :=
  keys.foldl (fun f k => assocSet f k 0) failed

theorem setZeros_lookup_not_mem (keys : List String)
    (failed : List (String × ℕ)) (k : String) (h : k ∉ keys) :
    assocLookup (setZeros failed keys) k = assocLookup failed k := by
  induction keys generalizing failed with
  | nil => rfl
  | cons k0 rest ih =>
    have hk0 : k0 ≠ k := by
      intro hcon
      exact h (hcon ▸ List.mem_cons_self k0 rest)
    have hrest : k ∉ rest := fun hcon => h (List.mem_cons_of_mem k0 hcon)
    unfold setZeros at ih ⊢
    simp only [List.foldl]
    rw [ih _ hrest, assocLookup_assocSet_ne _ _ _ _ hk0]

theorem setZeros_lookup_mem (keys : List String)
    (failed : List (String × ℕ)) (k : String) (hk : k ∈ keys)
    (hnd : keys.Nodup) : assocLookup (setZeros failed keys) k = some 0 := by
  induction keys generalizing failed with
  | nil => simp at hk
  | cons k0 rest ih =>
    unfold setZeros
    simp only [List.foldl]
    rcases List.mem_cons.mp hk with heq | hmem
    · subst heq
      have hnotin : k ∉ rest := (List.nodup_cons.mp hnd).1
      have := setZeros_lookup_not_mem rest (assocSet failed k 0) k hnotin
      unfold setZeros at this
      rw [this, assocLookup_assocSet_self]
    · exact ih _ hmem (List.nodup_cons.mp hnd).2

/-- The recovery loop takes, in order, the first up-to-(3 - |avail|)
sorted candidates that belong to the pool, appends them to the available
list and zeroes their counters. -/
theorem recoverLoop_spec (proxies : List String) :
    ∀ (l : List (String × ℕ)) (avail : List String)
      (failed : List (String × ℕ)),
      (∀ q ∈ l, q.1 ∉ avail) → (l.map Prod.fst).Nodup →
      avail.length < 3 →
      recoverLoop proxies l avail failed =
        (avail ++ ((l.filter (fun q => decide (q.1 ∈ proxies))).take
            (3 - avail.length)).map Prod.fst,
         setZeros failed (((l.filter (fun q => decide (q.1 ∈ proxies))).take
            (3 - avail.length)).map Prod.fst)) := by
  intro l
  induction l with
  | nil =>
    intro avail failed _ _ _
    simp [recoverLoop, setZeros]
  | cons q rest ih =>
    intro avail failed hdisj hnd hlen
    obtain ⟨p, c⟩ := q
    have hpavail : p ∉ avail := hdisj (p, c) (List.mem_cons_self _ _)
    have hnd2 : p ∉ rest.map Prod.fst ∧ (rest.map Prod.fst).Nodup := by
      rw [List.map_cons] at hnd
      exact List.nodup_cons.mp hnd
    have hndrest : (rest.map Prod.fst).Nodup := hnd2.2
    have hpnotrest : ∀ q ∈ rest, q.1 ≠ p := by
      intro q hq hcon
      exact hnd2.1 (hcon ▸ List.mem_map_of_mem Prod.fst hq)
    unfold recoverLoop
    by_cases hin : p ∈ proxies
    · rw [if_pos ⟨hpavail, hin⟩]
      simp only []
      by_cases hbreak : 3 ≤ (avail ++ [p]).length
      · rw [if_pos hbreak]
        have hlen2 : avail.length = 2 := by
          simp at hbreak
          omega
        have htake : 3 - avail.length = 1 := by omega
        rw [htake]
        simp [List.filter_cons, hin, setZeros]
      · rw [if_neg hbreak]
        have hlen2 : (avail ++ [p]).length < 3 := by omega
        have hdisj2 : ∀ q ∈ rest, q.1 ∉ avail ++ [p] := by
          intro q hq hmem
          rcases List.mem_append.mp hmem with h1 | h2
          · exact hdisj q (List.mem_cons_of_mem _ hq) h1
          · exact hpnotrest q hq (by simpa using h2)
        rw [ih (avail ++ [p]) (assocSet failed p 0) hdisj2 hndrest hlen2]
        have hlenp : (avail ++ [p]).length = avail.length + 1 := by simp
        have htake : 3 - (avail ++ [p]).length = (3 - avail.length) - 1 := by
          rw [hlenp]; omega
        have htake2 : ∃ n, 3 - avail.length = n + 1 := by
          refine ⟨2 - avail.length, ?_⟩
          omega
        obtain ⟨n, hn⟩ := htake2
        rw [htake, hn]
        simp only [List.filter_cons, decide_eq_true_eq, hin, if_pos,
          List.take_succ_cons, List.map_cons, Nat.add_sub_cancel]
        simp [setZeros]
    · have hcond : ¬ (p ∉ avail ∧ p ∈ proxies) := by
        intro hcon
        exact hin hcon.2
      rw [if_neg hcond]
      have hdisj2 : ∀ q ∈ rest, q.1 ∉ avail :=
        fun q hq => hdisj q (List.mem_cons_of_mem _ hq)
      rw [ih avail failed hdisj2 hndrest hlen]
      simp only [List.filter_cons, decide_eq_true_eq, hin, if_neg,
        not_false_eq_true]

/-- get_proxy_rotate never changes the pool, the available list or the
failure counters. -/
theorem get_proxy_rotate_preserves (s : ProxyManager) (now : ℤ) :
    (get_proxy_rotate s now).1.available_proxies = s.available_proxies ∧
    (get_proxy_rotate s now).1.failed_proxies = s.failed_proxies := by
  obtain ⟨pr, av, fp, plu, cur⟩ := s
  unfold get_proxy_rotate
  dsimp only
  cases cur with
  | none =>
    dsimp only
    cases hf : av.find? (fun p => decide (60 < now - (assocLookup plu p).getD 0)) with
    | some p => exact ⟨rfl, rfl⟩
    | none =>
      cases av with
      | nil => exact ⟨rfl, rfl⟩
      | cons a rest => exact ⟨rfl, rfl⟩
  | some c =>
    dsimp only
    by_cases hc : c ≠ "" ∧ c ∈ av
    · rw [if_pos hc]
      by_cases ht : 60 < now - (assocLookup plu c).getD 0
      · rw [if_pos ht]
        exact ⟨rfl, rfl⟩
      · rw [if_neg ht]
        cases hf : av.find? (fun p => decide (60 < now - (assocLookup plu p).getD 0)) with
        | some p => exact ⟨rfl, rfl⟩
        | none =>
          cases av with
          | nil => exact ⟨rfl, rfl⟩
          | cons a rest => exact ⟨rfl, rfl⟩
    · rw [if_neg hc]
      cases hf : av.find? (fun p => decide (60 < now - (assocLookup plu p).getD 0)) with
      | some p => exact ⟨rfl, rfl⟩
      | none =>
        cases av with
        | nil => exact ⟨rfl, rfl⟩
        | cons a rest => exact ⟨rfl, rfl⟩

/-! ### Theorems for C4 -/

/-- A five-proxy pool in its initial state. -/
def cexProxyStart : ProxyManager :=
  { proxies := ["p1", "p2", "p3", "p4", "p5"],
    available_proxies := ["p1", "p2", "p3", "p4", "p5"],
    failed_proxies := [], proxy_last_used := [], current_proxy := none }

/-- The pool after p4, p5 and p3 each fail three times (retiring all
three and dropping availability to 2) followed by one get_proxy call. -/
def cexProxyAfter : ProxyManager :=
  (get_proxy (mark_proxy_failure (mark_proxy_failure (mark_proxy_failure
    (mark_proxy_failure (mark_proxy_failure (mark_proxy_failure
    (mark_proxy_failure (mark_proxy_failure (mark_proxy_failure
    cexProxyStart "p4") "p4") "p4") "p5") "p5") "p5") "p3") "p3") "p3")
    1000).1

/-- C4 counterexample: after three proxies are retired the available
count is 2 (within the claimed ≤ 3 recovery region) and a get_proxy call
has happened, yet no retired proxy is reinstated and p5 keeps failure
count 3: recovery did not trigger at count ≤ 3. -/
theorem proxy_recovery_not_triggered :
    cexProxyAfter.available_proxies = ["p1", "p2"] ∧
    cexProxyAfter.available_proxies.length ≤ 3 ∧
    "p5" ∉ cexProxyAfter.available_proxies ∧
    assocLookup cexProxyAfter.failed_proxies "p5" = some 3 := by
  refine ⟨by decide, by decide, by decide, by decide⟩

instance : IsTotal (String × ℕ) (fun a b => a.2 ≤ b.2) :=
  ⟨fun a b => Nat.le_total a.2 b.2⟩

instance : IsTrans (String × ℕ) (fun a b => a.2 ≤ b.2) :=
  ⟨fun _ _ _ hab hbc => le_trans hab hbc⟩

/-- C4 amended: mark_proxy_failure increments the proxy's failure count
and, at the threshold of 3 cumulative un-reset failures, removes it from
the available list and unpins it (below the threshold nothing else
changes); recovery is attempted only inside get_proxy and only when the
available list is empty — a get_proxy call on a non-empty pool changes
neither the available list nor the failure counters; and recovery
reinstates, from the stable count-ascending ordering of the failure
dict, the first up-to-3 retired proxies belonging to the pool, resetting
their counters to zero. -/
theorem proxy_retirement_recovery_amended :
    (∀ (s : ProxyManager) (p : String), p ≠ "" →
      assocLookup (mark_proxy_failure s p).failed_proxies p =
        some ((assocLookup s.failed_proxies p).getD 0 + 1) ∧
      (PROXY_ROTATION_THRESHOLD ≤ (assocLookup s.failed_proxies p).getD 0 + 1 →
        s.available_proxies.Nodup →
        p ∉ (mark_proxy_failure s p).available_proxies ∧
        (mark_proxy_failure s p).current_proxy ≠ some p) ∧
      ((assocLookup s.failed_proxies p).getD 0 + 1 < PROXY_ROTATION_THRESHOLD →
        (mark_proxy_failure s p).available_proxies = s.available_proxies ∧
        (mark_proxy_failure s p).current_proxy = s.current_proxy)) ∧
    (∀ (s : ProxyManager) (now : ℤ), s.available_proxies ≠ [] →
      (get_proxy s now).1.available_proxies = s.available_proxies ∧
      (get_proxy s now).1.failed_proxies = s.failed_proxies) ∧
    (∀ (s : ProxyManager) (now : ℤ), s.available_proxies = [] →
      (get_proxy s now).1.available_proxies =
        (recover_failed_proxies s).available_proxies ∧
      (get_proxy s now).1.failed_proxies =
        (recover_failed_proxies s).failed_proxies) ∧
    (∀ s : ProxyManager, s.available_proxies = [] →
      (s.failed_proxies.map Prod.fst).Nodup →
      (recover_failed_proxies s).available_proxies =
        (((sortByFailures s.failed_proxies).filter
          (fun q => decide (q.1 ∈ s.proxies))).take 3).map Prod.fst ∧
      (∀ q ∈ ((sortByFailures s.failed_proxies).filter
          (fun q => decide (q.1 ∈ s.proxies))).take 3,
        assocLookup (recover_failed_proxies s).failed_proxies q.1 = some 0) ∧
      ((sortByFailures s.failed_proxies).map Prod.snd).Sorted (· ≤ ·)) := by
  refine ⟨?_, ?_, ?_, ?_⟩
  · intro s p hp
    unfold mark_proxy_failure
    rw [if_neg hp]
    dsimp only
    refine ⟨?_, ?_, ?_⟩
    · by_cases hth : PROXY_ROTATION_THRESHOLD ≤
          (assocLookup s.failed_proxies p).getD 0 + 1
      · rw [if_pos hth]
        exact assocLookup_assocSet_self _ _ _
      · rw [if_neg hth]
        exact assocLookup_assocSet_self _ _ _
    · intro hth hnd
      rw [if_pos hth]
      constructor
      · dsimp only
        intro hmem
        exact ((List.Nodup.mem_erase_iff hnd).mp hmem).1 rfl
      · dsimp only
        by_cases hcur : s.current_proxy = some p
        · rw [if_pos hcur]
          simp
        · rw [if_neg hcur]
          exact hcur
    · intro hth
      rw [if_neg (by omega :
        ¬ PROXY_ROTATION_THRESHOLD ≤ (assocLookup s.failed_proxies p).getD 0 + 1)]
      exact ⟨rfl, rfl⟩
  · intro s now hne
    have hie : s.available_proxies.isEmpty = false := by
      simpa [List.isEmpty_iff] using hne
    unfold get_proxy
    simp only [hie, Bool.false_eq_true, if_false]
    exact get_proxy_rotate_preserves s now
  · intro s now he
    have hie : s.available_proxies.isEmpty = true := by
      simp [List.isEmpty_iff, he]
    unfold get_proxy
    simp only [hie, if_true]
    by_cases hre : (recover_failed_proxies s).available_proxies.isEmpty = true
    · simp [hre]
    · simp only [hre, Bool.false_eq_true, if_false]
      exact get_proxy_rotate_preserves (recover_failed_proxies s) now
  · intro s he hnd
    have hndsorted : ((sortByFailures s.failed_proxies).map Prod.fst).Nodup := by
      have hperm : List.Perm ((sortByFailures s.failed_proxies).map Prod.fst)
          (s.failed_proxies.map Prod.fst) :=
        (List.perm_insertionSort _ s.failed_proxies).map Prod.fst
      exact hperm.nodup_iff.mpr hnd
    have hlen : ¬ 3 < s.available_proxies.length := by
      rw [he]
      simp
    have hspec := recoverLoop_spec s.proxies (sortByFailures s.failed_proxies)
      [] s.failed_proxies (by intro q _; exact List.not_mem_nil q.1) hndsorted
      (by simp)
    simp only [List.length_nil, Nat.sub_zero, List.nil_append] at hspec
    unfold recover_failed_proxies
    rw [if_neg hlen]
    dsimp only
    rw [he, hspec]
    refine ⟨rfl, ?_, ?_⟩
    · intro q hq
      have hmemk : q.1 ∈ (((sortByFailures s.failed_proxies).filter
          (fun q => decide (q.1 ∈ s.proxies))).take 3).map Prod.fst :=
        List.mem_map_of_mem Prod.fst hq
      have hsub : List.Sublist
          ((((sortByFailures s.failed_proxies).filter
            (fun q => decide (q.1 ∈ s.proxies))).take 3).map Prod.fst)
          ((sortByFailures s.failed_proxies).map Prod.fst) :=
        List.Sublist.map Prod.fst
          ((List.take_sublist _ _).trans (List.filter_sublist _))
      exact setZeros_lookup_mem _ _ _ hmemk (hndsorted.sublist hsub)
    · have hsorted := List.sorted_insertionSort
        (fun (a b : String × ℕ) => a.2 ≤ b.2) s.failed_proxies
      unfold sortByFailures
      rw [List.Sorted, List.pairwise_map]
      exact hsorted

/-- A pool with an empty available list and two retired proxies. -/
def cexRetiredPool : ProxyManager :=
  { proxies := ["a", "b"],
    available_proxies := [],
    failed_proxies := [("b", 4), ("a", 3)],
    proxy_last_used := [], current_proxy := none }

/-- Witness for C4 amended at concrete pools. -/
theorem proxy_retirement_recovery_amended_witness :
    assocLookup (mark_proxy_failure cexProxyStart "p1").failed_proxies "p1" =
      some ((assocLookup cexProxyStart.failed_proxies "p1").getD 0 + 1) ∧
    (get_proxy cexProxyStart 1000).1.available_proxies =
      cexProxyStart.available_proxies ∧
    (recover_failed_proxies cexRetiredPool).available_proxies =
      (((sortByFailures cexRetiredPool.failed_proxies).filter
        (fun q => decide (q.1 ∈ cexRetiredPool.proxies))).take 3).map Prod.fst := by
  refine ⟨?_, ?_, ?_⟩
  · exact (proxy_retirement_recovery_amended.1 cexProxyStart "p1" (by decide)).1
  · exact (proxy_retirement_recovery_amended.2.1 cexProxyStart 1000 (by decide)).1
  · exact (proxy_retirement_recovery_amended.2.2.2 cexRetiredPool (by rfl)
      (by decide)).1

/-! ## extract_sku_from_url (C5)

The regex search `re.search(r'/d/[^/]+-(\d+)/?', url)` is embedded
directly: a match can start at any occurrence of "/d/" (leftmost first);
after it, the greedy `[^/]+` with backtracking selects the rightmost
dash that is followed by a digit within the run of non-slash characters,
and the capture is the maximal digit run after that dash (the trailing
`/?` is optional and never fails).  `\d` is modelled as an ASCII digit.
The md5 hexdigest is an injected parameter `md5hex`; the claims about
extraction do not depend on the digest's value, only on its determinism,
which holds for any function.  urllib.parse is modelled for the
scheme/netloc/path/query/fragment split; percent-decoding and the
params (';') component are not modelled. -/

/-- Backtracking step of the regex tail `-(\d+)` inside the non-slash
run after `[^/]+` consumed at least one character: find the last dash
followed by a digit; the capture is the maximal digit run after it. -/
def lastDashCapture : List Char → Option (List Char)
  | [] => none
  | c :: cs =>
    match lastDashCapture cs with
    | some cap => some cap
    | none =>
      if c = '-' ∧ (cs.headD '/').isDigit then some (cs.takeWhile Char.isDigit)
      else none

/-- Match of `[^/]+-(\d+)/?` at a fixed start position: take the maximal
run of non-slash characters; `[^/]+` must consume at least one character
before the dash. -/
def matchSegment (cs : List Char) : Option (List Char) :=
  match cs.takeWhile (fun c => c != '/') with
  | [] => none
  | _ :: rtail => lastDashCapture rtail

/-- re.search for the pattern: scan left to right for an occurrence of
"/d/" whose continuation matches, returning the first capture. -/
def searchDPattern : List Char → Option (List Char)
  | [] => none
  | c :: rest =>
    if (c :: rest).take 3 = ['/', 'd', '/'] then
      match matchSegment (rest.drop 2) with
      | some cap => some cap
      | none => searchDPattern rest
    else searchDPattern rest

/-- Valid RFC-3986 scheme character (after the leading letter). -/
def isSchemeChar (c : Char) : Bool :=
  c.isAlphanum || c == '+' || c == '-' || c == '.'

/-- urlparse scheme split: strip `scheme:` when the text before the
first colon is a well-formed scheme. -/
def stripScheme (s : List Char) : List Char :=
  let front := s.takeWhile (fun c => c != ':')
  match s.dropWhile (fun c => c != ':') with
  | ':' :: rest =>
    if front ≠ [] ∧ (front.headD ' ').isAlpha ∧ front.all isSchemeChar then rest
    else s
  | _ => s

/-- urlparse netloc split: after `//`, the netloc runs to the next
slash, question mark or hash. -/
def stripNetloc (s : List Char) : List Char :=
  match s with
  | '/' :: '/' :: rest =>
    rest.dropWhile (fun c => c != '/' && c != '?' && c != '#')
  | _ => s

/-- Python str.strip('/'). -/
def stripSlashes (s : List Char) : List Char :=
  ((s.dropWhile (fun c => c == '/')).reverse.dropWhile (fun c => c == '/')).reverse

/-- unquote_plus restricted to the plus sign (percent-decoding is not
modelled). -/
def plusDecode (l : List Char) : List Char :=
  l.map (fun c => if c = '+' then ' ' else c)

/-- parse_qs with default options: split on ampersands, drop empty
fields, split each field at its first equals sign, and drop fields
without one or with an empty value. -/
def parseQsPairs (query : List Char) : List (String × String) :=
  (query.splitOn '&').filterMap (fun pair =>
    if pair = [] then none
    else if '=' ∈ pair then
      let name := pair.takeWhile (fun c => c != '=')
      let value := (pair.dropWhile (fun c => c != '=')).drop 1
      if value = [] then none
      else some (String.mk (plusDecode name), String.mk (plusDecode value))
    else none)

/-- The query component of a URL: after the first question mark, before
any fragment. -/
def urlQueryChars (url : String) : List Char :=
  ((url.toList.takeWhile (fun c => c != '#')).dropWhile (fun c => c != '?')).drop 1

/-- The path component of a URL. -/
def urlPathChars (url : String) : List Char :=
  stripNetloc (stripScheme
    ((url.toList.takeWhile (fun c => c != '#')).takeWhile (fun c => c != '?')))

/-- The last path segment: `parsed.path.strip('/').split('/')[-1]`
(Python split always yields a non-empty list). -/
def lastPathSegment (url : String) : Option (List Char) :=
  ((stripSlashes (urlPathChars url)).splitOn '/').getLast?

/-- Python str.isdigit: non-empty and all digits. -/
def pyIsDigit (l : List Char) : Bool :=
  !l.isEmpty && l.all Char.isDigit

/-- The hash-derived fallback `f"hash-{md5(url).hexdigest()[:8]}"`. -/
def skuFallback (md5hex : String → String) (url : String) : String :=
  "hash-" ++ (md5hex url).take 8

/-- extract_sku_from_url: regex capture first; then the first `sku` or
`id` query parameter; then the last path segment when it is all digits;
finally the md5-derived fallback. -/
def extract_sku_from_url (md5hex : String → String) (url : String) :
    Option String :=
  match searchDPattern url.toList with
  | some cap => some (String.mk cap)
  | none =>
    let qs := parseQsPairs (urlQueryChars url)
    match assocLookup qs "sku" with
    | some v => some v
    | none =>
      match assocLookup qs "id" with
      | some v => some v
      | none =>
        match lastPathSegment url with
        | some seg =>
          if pyIsDigit seg then some (String.mk seg)
          else some (skuFallback md5hex url)
        | none => some (skuFallback md5hex url)

/-! ### Lemmas about the regex embedding -/

theorem toListAppend (s t : String) : (s ++ t).toList = s.toList ++ t.toList :=
  rfl

theorem string_toList_nil (s : String) (h : s.toList = []) : s = "" := by
  cases s with
  | mk data =>
    cases h
    rfl

theorem takeWhile_all {p : Char → Bool} :
    ∀ l : List Char, (∀ x ∈ l, p x = true) → l.takeWhile p = l := by
  intro l
  induction l with
  | nil => intro _; rfl
  | cons c cs ih =>
    intro h
    rw [List.takeWhile_cons, if_pos (h c (List.mem_cons_self _ _)),
      ih (fun x hx => h x (List.mem_cons_of_mem _ hx))]

theorem takeWhile_all_append {p : Char → Bool} :
    ∀ (l1 l2 : List Char), (∀ x ∈ l1, p x = true) →
    (l1 ++ l2).takeWhile p = l1 ++ l2.takeWhile p := by
  intro l1
  induction l1 with
  | nil => intro l2 _; rfl
  | cons c cs ih =>
    intro l2 h
    rw [List.cons_append, List.takeWhile_cons,
      if_pos (h c (List.mem_cons_self _ _)),
      ih l2 (fun x hx => h x (List.mem_cons_of_mem _ hx))]
    rfl

theorem digit_bne_slash (c : Char) (h : c.isDigit = true) : (c != '/') = true := by
  by_cases hc : c = '/'
  · subst hc
    exact absurd h (by decide)
  · simpa using hc

theorem lastDashCapture_none_of_digits :
    ∀ l : List Char, (∀ c ∈ l, c.isDigit = true) → lastDashCapture l = none := by
  intro l
  induction l with
  | nil => intro _; rfl
  | cons c cs ih =>
    intro h
    unfold lastDashCapture
    rw [ih (fun x hx => h x (List.mem_cons_of_mem _ hx))]
    have hcd : c.isDigit = true := h c (List.mem_cons_self _ _)
    have hcne : ¬ (c = '-' ∧ (cs.headD '/').isDigit = true) := by
      intro hcon
      rw [hcon.1] at hcd
      exact absurd hcd (by decide)
    rw [if_neg hcne]

theorem lastDashCapture_append (l1 l2 : List Char) (cap : List Char)
    (h : lastDashCapture l2 = some cap) :
    lastDashCapture (l1 ++ l2) = some cap := by
  induction l1 with
  | nil => simpa using h
  | cons c cs ih =>
    rw [List.cons_append]
    unfold lastDashCapture
    rw [ih]

theorem lastDashCapture_dash_digits (digitsL : List Char)
    (hd : digitsL ≠ []) (hds : ∀ c ∈ digitsL, c.isDigit = true) :
    lastDashCapture ('-' :: digitsL) = some digitsL := by
  unfold lastDashCapture
  rw [lastDashCapture_none_of_digits digitsL hds]
  cases digitsL with
  | nil => exact absurd rfl hd
  | cons d ds =>
    rw [if_pos ⟨rfl, hds d (List.mem_cons_self _ _)⟩]
    rw [takeWhile_all _ hds]

theorem matchSegment_name_digits (nameL digitsL postL : List Char)
    (hn : nameL ≠ []) (hns : ∀ c ∈ nameL, c ≠ '/')
    (hd : digitsL ≠ []) (hds : ∀ c ∈ digitsL, c.isDigit = true) :
    matchSegment (nameL ++ '-' :: (digitsL ++ '/' :: postL)) = some digitsL := by
  have hrun : (nameL ++ '-' :: (digitsL ++ '/' :: postL)).takeWhile
      (fun c => c != '/') = nameL ++ '-' :: digitsL := by
    rw [takeWhile_all_append _ _ (fun x hx => by simpa using hns x hx)]
    congr 1
    rw [List.takeWhile_cons, if_pos (by decide)]
    rw [takeWhile_all_append _ _ (fun x hx => digit_bne_slash x (hds x hx))]
    rw [List.takeWhile_cons, if_neg (by decide)]
    simp
  unfold matchSegment
  rw [hrun]
  cases nameL with
  | nil => exact absurd rfl hn
  | cons n0 ntail =>
    rw [List.cons_append]
    exact lastDashCapture_append ntail ('-' :: digitsL) digitsL
      (lastDashCapture_dash_digits digitsL hd hds)

theorem searchD_skip : ∀ (pre rest : List Char),
    (∀ i, i < pre.length → ((pre ++ rest).drop i).take 3 ≠ ['/', 'd', '/']) →
    searchDPattern (pre ++ rest) = searchDPattern rest := by
  intro pre
  induction pre with
  | nil => intro rest _; rfl
  | cons c cs ih =>
    intro rest h
    have h0 : ¬ ((c :: cs ++ rest).take 3 = ['/', 'd', '/']) := by
      have := h 0 (Nat.succ_pos _)
      simpa using this
    rw [List.cons_append]
    show (if (c :: (cs ++ rest)).take 3 = ['/', 'd', '/'] then
        match matchSegment ((cs ++ rest).drop 2) with
        | some cap => some cap
        | none => searchDPattern (cs ++ rest)
      else searchDPattern (cs ++ rest)) = searchDPattern rest
    rw [if_neg (by simpa using h0)]
    exact ih rest (fun i hi => by
      have := h (i + 1) (Nat.succ_lt_succ hi)
      simpa using this)

/-! ### Theorems for C5 -/

/-- C5 counterexample: the URL "/d/a-1x/d/example-123456/" contains the
path segment pair "/d/example-123456/" matching the claimed pattern with
digits "123456", yet extraction returns "1": the regex match at the
leftmost "/d/" occurrence wins, with its optional trailing slash letting
"-1" inside "a-1x" match. -/
theorem extract_sku_leftmost_counterexample :
    extract_sku_from_url (fun _ => "") "/d/a-1x/d/example-123456/" =
      some "1" ∧ ("1" : String) ≠ "123456" := by
  exact ⟨by decide, by decide⟩

/-- C5 amended: extraction returns the capture of the leftmost regex
match: for a URL pre ++ "/d/" ++ name ++ "-" ++ digits ++ "/" ++ post in
which no "/d/" occurrence starts before the displayed one, the result is
exactly the digits; and when no extraction rule applies (no regex match,
no sku/id query parameter, last path segment not all digits) the result
is the deterministic hash-derived fallback "hash-" ++ the first 8 hex
digits of md5(url). -/
theorem extract_sku_amended :
    (∀ (md5hex : String → String) (pre name digits post : String),
      name ≠ "" → (∀ c ∈ name.toList, c ≠ '/') →
      digits ≠ "" → (∀ c ∈ digits.toList, c.isDigit = true) →
      (∀ i, i < pre.toList.length →
        (((pre ++ "/d/" ++ name ++ "-" ++ digits ++ "/" ++ post).toList).drop
          i).take 3 ≠ ['/', 'd', '/']) →
      extract_sku_from_url md5hex
        (pre ++ "/d/" ++ name ++ "-" ++ digits ++ "/" ++ post) = some digits) ∧
    (∀ (md5hex : String → String) (url : String),
      searchDPattern url.toList = none →
      assocLookup (parseQsPairs (urlQueryChars url)) "sku" = none →
      assocLookup (parseQsPairs (urlQueryChars url)) "id" = none →
      (∀ seg, lastPathSegment url = some seg → pyIsDigit seg = false) →
      extract_sku_from_url md5hex url = some (skuFallback md5hex url)) := by
  constructor
  · intro md5hex pre name digits post hn hns hd hds hpre
    have hn' : name.toList ≠ [] := fun hcon => hn (string_toList_nil name hcon)
    have hd' : digits.toList ≠ [] := fun hcon => hd (string_toList_nil digits hcon)
    have hurl : (pre ++ "/d/" ++ name ++ "-" ++ digits ++ "/" ++ post).toList =
        pre.toList ++ ('/' :: 'd' :: '/' ::
          (name.toList ++ '-' :: (digits.toList ++ '/' :: post.toList))) := by
      have h1 : ("/d/" : String).toList = ['/', 'd', '/'] := rfl
      have h2 : ("-" : String).toList = ['-'] := rfl
      have h3 : ("/" : String).toList = ['/'] := rfl
      simp [toListAppend, h1, h2, h3]
    have hpre' : ∀ i, i < pre.toList.length →
        ((pre.toList ++ ('/' :: 'd' :: '/' ::
          (name.toList ++ '-' :: (digits.toList ++ '/' :: post.toList)))).drop
            i).take 3 ≠ ['/', 'd', '/'] := by
      intro i hi
      have := hpre i hi
      rwa [hurl] at this
    have hsearch : searchDPattern
        (pre ++ "/d/" ++ name ++ "-" ++ digits ++ "/" ++ post).toList =
        some digits.toList := by
      rw [hurl, searchD_skip _ _ hpre']
      show (match matchSegment (name.toList ++ '-' ::
        (digits.toList ++ '/' :: post.toList)) with
        | some cap => some cap
        | none => searchDPattern ('d' :: '/' ::
            (name.toList ++ '-' :: (digits.toList ++ '/' :: post.toList)))) =
        some digits.toList
      rw [matchSegment_name_digits name.toList digits.toList post.toList
        hn' hns hd' hds]
    unfold extract_sku_from_url
    rw [hsearch]
    rfl
  · intro md5hex url h1 h2 h3 h4
    unfold extract_sku_from_url
    rw [h1]
    dsimp only
    rw [h2, h3]
    cases hseg : lastPathSegment url with
    | none => rfl
    | some seg =>
      dsimp only
      rw [h4 seg hseg]
      simp

/-- Witness for C5 amended on a clean product URL and on a URL with no
recognizable pattern. -/
theorem extract_sku_amended_witness :
    extract_sku_from_url (fun _ => "")
        ("" ++ "/d/" ++ "example" ++ "-" ++ "123456" ++ "/" ++ "") =
      some "123456" ∧
    extract_sku_from_url (fun _ => "0123456789abcdef")
        "https://example.com/foo" =
      some (skuFallback (fun _ => "0123456789abcdef")
        "https://example.com/foo") := by
  constructor
  · exact extract_sku_amended.1 (fun _ => "") "" "example" "123456" ""
      (by decide) (by decide) (by decide) (by decide)
      (fun i hi => absurd hi (Nat.not_lt_zero i))
  · refine extract_sku_amended.2 (fun _ => "0123456789abcdef")
      "https://example.com/foo" (by decide) (by decide) (by decide) ?_
    intro seg h
    have h2 : (some ['f', 'o', 'o'] : Option (List Char)) = some seg := h
    cases h2
    decide

/-! ## RateLimiter (C1)

`acquire` holds the asyncio lock for its whole body, including the
sleep, so concurrent callers serialize: a run is a sequence of atomic
acquire steps.  Each step is driven by the `time.time()` reading `now`
at entry (any later caller reads a time no smaller than the previous
call's completion) and the jitter drawn by `random.uniform(60, 120)`.
The returned value of a step is the completion time: the time at which
the current timestamp is appended and the caller proceeds. -/

/-- The RateLimiter state: configuration plus the timestamp list. -/
structure RateLimiter where
  rate_limit : ℕ
  period : ℚ
  timestamps : List ℚ

/-- The pruning comprehension
`[ts for ts in self.timestamps if now - ts < self.period]`. -/
def prune (period now : ℚ) (ts : List ℚ) : List ℚ :=
  ts.filter (fun t => decide (now - t < period))

/-- Python `min` over a non-empty list (0 for the empty list, on which
the source would raise). -/
def listMin : List ℚ → ℚ
  | [] => 0
  | h :: t => t.foldl min h

/-- RateLimiter.acquire as one atomic step: prune, then if the retained
count reaches the limit wait for `period - (now - oldest) + jitter`
(when positive), re-prune at the new time, and append the current
timestamp.  Returns the new state and the completion time. -/
def RateLimiter.acquire (s : RateLimiter) (now jitter : ℚ) :
    RateLimiter × ℚ :=
  let ts1 := prune s.period now s.timestamps
  if s.rate_limit ≤ ts1.length then
    let oldest := listMin ts1
    let wait_time := s.period - (now - oldest) + jitter
    if 0 < wait_time then
      let now2 := now + wait_time
      let ts2 := prune s.period now2 ts1
      ({ s with timestamps := ts2 ++ [now2] }, now2)
    else ({ s with timestamps := ts1 ++ [now] }, now)
  else ({ s with timestamps := ts1 ++ [now] }, now)

/-- The completion times of a sequence of acquire calls with the given
(entry time, jitter) inputs. -/
def RateLimiter.runAcquires : RateLimiter → List (ℚ × ℚ) → List ℚ
  | _, [] => []
  | s, (now, jitter) :: rest =>
    (s.acquire now jitter).2 ::
      (s.acquire now jitter).1.runAcquires rest

/-- Physically realizable inputs: every jitter is in [60, 120] (the
range of random.uniform(60, 120)) and every entry time is at least the
previous call's completion time (the lock serializes calls and clocks
do not go backwards). -/
def ValidInputs : RateLimiter → ℚ → List (ℚ × ℚ) → Prop
  | _, _, [] => True
  | s, last, (now, jitter) :: rest =>
    last ≤ now ∧ 60 ≤ jitter ∧ jitter ≤ 120 ∧
    ValidInputs (s.acquire now jitter).1 (s.acquire now jitter).2 rest

/-- Number of completion times inside the half-open window (t, t+period]. -/
def windowCount (period t : ℚ) (A : List ℚ) : ℕ :=
  A.countP (fun a => decide (t < a) && decide (a ≤ t + period))

/-! ### Lemmas about listMin -/

theorem foldl_min_le_init : ∀ (t : List ℚ) (a : ℚ), t.foldl min a ≤ a := by
  intro t
  induction t with
  | nil => intro a; exact le_refl a
  | cons h hs ih =>
    intro a
    exact le_trans (ih (min a h)) (min_le_left a h)

theorem foldl_min_le_mem : ∀ (t : List ℚ) (a x : ℚ), x ∈ t → t.foldl min a ≤ x := by
  intro t
  induction t with
  | nil => intro a x hx; cases hx
  | cons h hs ih =>
    intro a x hx
    rcases List.mem_cons.mp hx with heq | hmem
    · subst heq
      exact le_trans (foldl_min_le_init hs (min a x)) (min_le_right a x)
    · exact ih (min a h) x hmem

theorem foldl_min_mem : ∀ (t : List ℚ) (a : ℚ),
    t.foldl min a = a ∨ t.foldl min a ∈ t := by
  intro t
  induction t with
  | nil => intro a; exact Or.inl rfl
  | cons h hs ih =>
    intro a
    rcases ih (min a h) with heq | hmem
    · rw [List.foldl_cons, heq]
      rcases min_choice a h with h1 | h2
      · exact Or.inl h1
      · exact Or.inr (by rw [h2]; exact List.mem_cons_self h hs)
    · exact Or.inr (List.mem_cons_of_mem h hmem)

theorem listMin_mem (l : List ℚ) (h : l ≠ []) : listMin l ∈ l := by
  cases l with
  | nil => exact absurd rfl h
  | cons a t =>
    show t.foldl min a ∈ a :: t
    rcases foldl_min_mem t a with heq | hmem
    · rw [heq]; exact List.mem_cons_self a t
    · exact List.mem_cons_of_mem a hmem

theorem listMin_le (l : List ℚ) (x : ℚ) (hx : x ∈ l) : listMin l ≤ x := by
  cases l with
  | nil => cases hx
  | cons a t =>
    show t.foldl min a ≤ x
    rcases List.mem_cons.mp hx with heq | hmem
    · exact heq ▸ foldl_min_le_init t a
    · exact foldl_min_le_mem t a x hmem

/-! ### Characterizations of one acquire step -/

theorem acquire_eq_of_not_limited (s : RateLimiter) (now jitter : ℚ)
    (hcase : ¬ s.rate_limit ≤ (prune s.period now s.timestamps).length) :
    s.acquire now jitter =
      ({ s with timestamps := prune s.period now s.timestamps ++ [now] }, now) := by
  unfold RateLimiter.acquire
  dsimp only
  rw [if_neg hcase]

theorem acquire_eq_of_limited (s : RateLimiter) (now jitter : ℚ)
    (hcase : s.rate_limit ≤ (prune s.period now s.timestamps).length)
    (hwt : 0 < s.period - (now - listMin (prune s.period now s.timestamps)) + jitter) :
    s.acquire now jitter =
      ({ s with timestamps := prune s.period
                   (now + (s.period - (now - listMin (prune s.period now s.timestamps)) + jitter))
                   (prune s.period now s.timestamps) ++
                 [now + (s.period - (now - listMin (prune s.period now s.timestamps)) + jitter)] },
        now + (s.period - (now - listMin (prune s.period now s.timestamps)) + jitter)) := by
  unfold RateLimiter.acquire
  dsimp only
  rw [if_pos hcase, if_pos hwt]

/-! ### The sliding-window invariant for one acquire step -/

theorem acquire_step_inv (s : RateLimiter) (A : List ℚ) (last now jitter : ℚ)
    (hrl : 1 ≤ s.rate_limit) (hP : 0 < s.period)
    (hts : s.timestamps = A.filter (fun a => decide (last - a < s.period)))
    (hlast : ∀ a ∈ A, a ≤ last)
    (hwin : ∀ t, windowCount s.period t A ≤ s.rate_limit)
    (hnow : last ≤ now) (hjit : 60 ≤ jitter) :
    (s.acquire now jitter).1.timestamps =
      (A ++ [(s.acquire now jitter).2]).filter
        (fun a => decide ((s.acquire now jitter).2 - a < s.period)) ∧
    (∀ a ∈ A ++ [(s.acquire now jitter).2], a ≤ (s.acquire now jitter).2) ∧
    (∀ t, windowCount s.period t (A ++ [(s.acquire now jitter).2]) ≤
      s.rate_limit) ∧
    now ≤ (s.acquire now jitter).2 := by
  have hts1 : prune s.period now s.timestamps =
      A.filter (fun a => decide (now - a < s.period)) := by
    rw [hts]
    unfold prune
    rw [List.filter_filter]
    refine List.filter_congr ?_
    intro x _
    by_cases h1 : now - x < s.period
    · have h2 : last - x < s.period := by linarith
      simp [h1, h2]
    · simp [h1]
  have hcount_eq : A.countP (fun a => decide (now - a < s.period)) =
      windowCount s.period (now - s.period) A := by
    unfold windowCount
    rw [List.countP_eq_length_filter, List.countP_eq_length_filter]
    congr 1
    refine List.filter_congr ?_
    intro x hx
    have hxle : x ≤ now := le_trans (hlast x hx) hnow
    by_cases h1 : now - x < s.period
    · have h2 : now - s.period < x := by linarith
      have h3 : x ≤ now - s.period + s.period := by linarith
      simp [h1, h2, h3, hxle]
    · have h2 : ¬ (now - s.period < x) := fun hcon => h1 (by linarith)
      simp [h1, h2]
  have hlen1 : (prune s.period now s.timestamps).length ≤ s.rate_limit := by
    rw [hts1, ← List.countP_eq_length_filter, hcount_eq]
    exact hwin (now - s.period)
  have hAcount : A.countP (fun a => decide (now - a < s.period)) =
      (prune s.period now s.timestamps).length := by
    rw [hts1, List.countP_eq_length_filter]
  by_cases hcase : s.rate_limit ≤ (prune s.period now s.timestamps).length
  · -- limited branch: the caller waits
    have hne : prune s.period now s.timestamps ≠ [] := by
      intro hcon
      rw [hcon] at hcase
      simp only [List.length_nil, Nat.le_zero] at hcase
      omega
    have hom : listMin (prune s.period now s.timestamps) ∈
        prune s.period now s.timestamps := listMin_mem _ hne
    have homA : listMin (prune s.period now s.timestamps) ∈ A := by
      have h2 := hom
      rw [hts1] at h2
      rw [hts1]
      exact (List.mem_filter.mp h2).1
    have hage : now - listMin (prune s.period now s.timestamps) < s.period := by
      have h2 := hom
      rw [hts1] at h2
      have h3 := (List.mem_filter.mp h2).2
      rw [hts1]
      simpa using h3
    have hwt : 0 < s.period -
        (now - listMin (prune s.period now s.timestamps)) + jitter := by
      linarith
    rw [acquire_eq_of_limited s now jitter hcase hwt]
    dsimp only
    set m := listMin (prune s.period now s.timestamps) with hm
    refine ⟨?_, ?_, ?_, by linarith⟩
    · rw [List.filter_append]
      congr 1
      · rw [hts1]
        unfold prune
        rw [List.filter_filter]
        refine List.filter_congr ?_
        intro x _
        by_cases h1 : now + (s.period - (now - m) + jitter) - x < s.period
        · have h2 : now - x < s.period := by linarith
          simp [h1, h2]
        · simp [h1]
      · have hself : (decide (now + (s.period - (now - m) + jitter) -
            (now + (s.period - (now - m) + jitter)) < s.period)) = true :=
          decide_eq_true (by linarith)
        rw [List.filter_cons, hself]
        rfl
    · intro a ha
      rcases List.mem_append.mp ha with h1 | h2
      · have ha1 : a ≤ now := le_trans (hlast a h1) hnow
        linarith
      · have ha2 : a = now + (s.period - (now - m) + jitter) := by
          simpa using h2
        rw [ha2]
    · intro t
      unfold windowCount
      rw [List.countP_append]
      by_cases hwnow : (decide (t < now + (s.period - (now - m) + jitter)) &&
          decide (now + (s.period - (now - m) + jitter) ≤ t + s.period)) = true
      · have hf : t < now + (s.period - (now - m) + jitter) ∧
            now + (s.period - (now - m) + jitter) ≤ t + s.period := by
          simpa using hwnow
        have hmono1 : A.countP (fun a => decide (t < a) &&
            decide (a ≤ t + s.period)) ≤
            A.countP (fun a => decide (m < a)) := by
          refine List.countP_mono_left ?_
          intro x _ hx
          have hx2 : t < x ∧ x ≤ t + s.period := by simpa using hx
          have hgt : m < x := by
            linarith [hf.1, hf.2, hx2.1, hx2.2]
          simpa using hgt
        have heq2 : A.countP (fun a => decide (m < a)) =
            A.countP (fun a => decide (m < a) && decide (now - a < s.period)) := by
          apply Nat.le_antisymm
          · refine List.countP_mono_left ?_
            intro x _ hx
            have h3 : m < x := by simpa using hx
            have h4 : now - x < s.period := by linarith
            simp [h3, h4]
          · refine List.countP_mono_left ?_
            intro x _ hx
            have h3 : (m < x) ∧ (now - x < s.period) := by simpa using hx
            simpa using h3.1
        have heq3 : A.countP (fun a =>
            decide (m < a) && decide (now - a < s.period)) =
            (prune s.period now s.timestamps).countP
              (fun a => decide (m < a)) := by
          rw [hts1, List.countP_filter]
        have hpos : 0 < (prune s.period now s.timestamps).countP
            (fun a => ¬ decide (m < a)) := by
          rw [List.countP_pos_iff]
          refine ⟨m, hom, ?_⟩
          simp
        have hsplit : (prune s.period now s.timestamps).length =
            (prune s.period now s.timestamps).countP
              (fun a => decide (m < a)) +
            (prune s.period now s.timestamps).countP
              (fun a => ¬ decide (m < a)) :=
          List.length_eq_countP_add_countP _ _
        have hsing : List.countP (fun a => decide (t < a) &&
            decide (a ≤ t + s.period))
            [now + (s.period - (now - m) + jitter)] ≤ 1 := by
          refine le_trans (List.countP_le_length _) ?_
          simp
        omega
      · rw [List.countP_singleton, if_neg hwnow]
        have hw := hwin t
        unfold windowCount at hw
        omega
  · -- not limited: append immediately
    rw [acquire_eq_of_not_limited s now jitter hcase]
    dsimp only
    have hlt : (prune s.period now s.timestamps).length < s.rate_limit :=
      Nat.not_le.mp hcase
    refine ⟨?_, ?_, ?_, le_refl now⟩
    · rw [List.filter_append, hts1]
      congr 1
      have hself : (decide (now - now < s.period)) = true :=
        decide_eq_true (by linarith)
      rw [List.filter_cons, hself]
      rfl
    · intro a ha
      rcases List.mem_append.mp ha with h1 | h2
      · exact le_trans (hlast a h1) hnow
      · have ha2 : a = now := by simpa using h2
        rw [ha2]
    · intro t
      unfold windowCount
      rw [List.countP_append]
      by_cases hwnow : (decide (t < now) && decide (now ≤ t + s.period)) = true
      · have hf : t < now ∧ now ≤ t + s.period := by simpa using hwnow
        have hmono : A.countP (fun a => decide (t < a) &&
            decide (a ≤ t + s.period)) ≤
            A.countP (fun a => decide (now - a < s.period)) := by
          refine List.countP_mono_left ?_
          intro x _ hx
          have hx2 : t < x ∧ x ≤ t + s.period := by simpa using hx
          have h3 : now - x < s.period := by linarith [hf.2, hx2.1]
          simpa using h3
        have hsing : List.countP (fun a => decide (t < a) &&
            decide (a ≤ t + s.period)) [now] ≤ 1 := by
          refine le_trans (List.countP_le_length _) ?_
          simp
        omega
      · rw [List.countP_singleton, if_neg hwnow]
        have hw := hwin t
        unfold windowCount at hw
        omega

/-- acquire never changes the configured limit or period. -/
theorem acquire_config_eq (s : RateLimiter) (now jitter : ℚ) :
    (s.acquire now jitter).1.rate_limit = s.rate_limit ∧
    (s.acquire now jitter).1.period = s.period := by
  unfold RateLimiter.acquire
  dsimp only
  split
  · split
    · exact ⟨rfl, rfl⟩
    · exact ⟨rfl, rfl⟩
  · exact ⟨rfl, rfl⟩

/-- The run-level invariant: starting from a state whose timestamp list
is the window-filter of the completion history A, every window of length
period contains at most rate_limit completions of A extended by the run. -/
theorem runAcquires_window :
    ∀ (inputs : List (ℚ × ℚ)) (s : RateLimiter) (last : ℚ) (A : List ℚ),
      1 ≤ s.rate_limit → 0 < s.period →
      s.timestamps = A.filter (fun a => decide (last - a < s.period)) →
      (∀ a ∈ A, a ≤ last) →
      (∀ t, windowCount s.period t A ≤ s.rate_limit) →
      ValidInputs s last inputs →
      ∀ t, windowCount s.period t (A ++ s.runAcquires inputs) ≤ s.rate_limit := by
  intro inputs
  induction inputs with
  | nil =>
    intro s last A _ _ _ _ hwin _ t
    simpa [RateLimiter.runAcquires] using hwin t
  | cons p rest ih =>
    intro s last A hrl hP hts hlast hwin hvalid t
    obtain ⟨now, jitter⟩ := p
    obtain ⟨hnow, hjlo, hjhi, hvrest⟩ := hvalid
    have hstep := acquire_step_inv s A last now jitter hrl hP hts hlast hwin
      hnow hjlo
    have hcfg := acquire_config_eq s now jitter
    have hrl2 : 1 ≤ (s.acquire now jitter).1.rate_limit := by
      rw [hcfg.1]; exact hrl
    have hP2 : 0 < (s.acquire now jitter).1.period := by
      rw [hcfg.2]; exact hP
    have hts2 : (s.acquire now jitter).1.timestamps =
        (A ++ [(s.acquire now jitter).2]).filter
          (fun a => decide ((s.acquire now jitter).2 - a <
            (s.acquire now jitter).1.period)) := by
      rw [hcfg.2]; exact hstep.1
    have hwin2 : ∀ t2, windowCount (s.acquire now jitter).1.period t2
        (A ++ [(s.acquire now jitter).2]) ≤
        (s.acquire now jitter).1.rate_limit := by
      intro t2
      rw [hcfg.1, hcfg.2]
      exact hstep.2.2.1 t2
    have hfinal := ih (s.acquire now jitter).1 (s.acquire now jitter).2
      (A ++ [(s.acquire now jitter).2]) hrl2 hP2 hts2 hstep.2.1 hwin2 hvrest t
    rw [hcfg.1, hcfg.2] at hfinal
    have hrun : s.runAcquires ((now, jitter) :: rest) =
        (s.acquire now jitter).2 ::
          (s.acquire now jitter).1.runAcquires rest := rfl
    rw [hrun, ← List.singleton_append, ← List.append_assoc]
    exact hfinal

/-- C1: for a RateLimiter constructed with limit N >= 1 and period
P > 0, along any physically realizable sequence of acquire calls
(jitter drawn from [60, 120], entry times no earlier than the previous
completion — the lock serializes the calls), every half-open time window
(t, t + P] contains at most N completed acquisitions. -/
theorem rate_limiter_window_bound (rate_limit : ℕ) (period : ℚ)
    (inputs : List (ℚ × ℚ)) (t : ℚ)
    (hrl : 1 ≤ rate_limit) (hP : 0 < period)
    (hvalid : ValidInputs (RateLimiter.mk rate_limit period []) 0 inputs) :
    windowCount period t
      ((RateLimiter.mk rate_limit period []).runAcquires inputs) ≤
      rate_limit := by
  have hmain := runAcquires_window inputs (RateLimiter.mk rate_limit period [])
    0 [] hrl hP (by rfl) (by intro a ha; cases ha)
    (by intro t2; unfold windowCount; simp) hvalid t
  simpa using hmain

/-- Witness for C1: limit 1, period 10, a single acquire at time 0 with
jitter 60; the window (-1, 9] holds at most one completion. -/
theorem rate_limiter_window_bound_witness :
    windowCount 10 (-1)
      ((RateLimiter.mk 1 10 []).runAcquires [((0 : ℚ), (60 : ℚ))]) ≤ 1 := by
  refine rate_limiter_window_bound 1 10 [(0, 60)] (-1) (le_refl 1)
    (by norm_num) ?_
  exact ⟨le_refl 0, le_refl 60, by norm_num, trivial⟩

end WillhabenScraper
